import Mathlib

/-!
Verification of the cart state engine of `src/pag-web/script.js`.

The JavaScript source is shallowly embedded: the cart (a JS object mapping
product-id keys to entry objects) becomes an association list, JS numbers
appearing in the program (ids, prices, quantities) become `Int`/`Nat`,
`JSON.stringify`/`JSON.parse` become an explicit character-level codec for
the exact object shape the program persists, and code paths that throw a
JS exception (`TypeError`, `SyntaxError`) return `none`.
-/

namespace Tienda

/-- Opening brace character. -/
def obrace : Char := Char.ofNat 123

/-- Closing brace character. -/
def cbrace : Char := Char.ofNat 125

/-- Single quote character. -/
def squote : Char := Char.ofNat 39

/-- Decimal digit character for a digit value, as produced by JS
`Number.prototype.toString`. -/
def digitChar (d : Nat) : Char := Char.ofNat (48 + d)

/-- Fuel-indexed digit expansion of a natural number, most significant digit
first (the kernel-reducible core of `natToChars`). -/
def natToCharsAux : Nat → Nat → List Char
  | 0, _ => []
  | fuel + 1, n =>
    if n = 0 then [] else natToCharsAux fuel (n / 10) ++ [digitChar (n % 10)]

/-- Decimal representation of a natural number, as produced by JS
`Number.prototype.toString` for a non-negative integer. -/
def natToChars (n : Nat) : List Char :=
  if n = 0 then ['0'] else natToCharsAux (n + 1) n

/-- Decimal representation of an integer, as produced by JS
`Number.prototype.toString` and hence by `JSON.stringify` for an
integral number. -/
def intToChars (i : Int) : List Char :=
  if i < 0 then '-' :: natToChars (-i).toNat else natToChars i.toNat

/-- A catalog product record: one element of the `products` array of the
source (`script.js` lines 8-17). -/
structure Product where
  id : Int
  name : String
  price : Nat
  desc : String
deriving DecidableEq, Repr

/-- The immutable catalog, `products` in `script.js` lines 8-17. -/
def products : List Product :=
  [ { id := 1, name := "Caja de galletas navideñas", price := 12000,
      desc := "Galletas artesanales con decoraciones festivas" },
    { id := 2, name := "Set de mug + cocoa", price := 25000,
      desc := "Mug temático y chocolate en polvo premium" },
    { id := 3, name := "Tarjeta personalizada", price := 6000,
      desc := "Tarjeta hecha a mano con mensaje" },
    { id := 4, name := "Adorno para árbol (pack 3)", price := 18000,
      desc := "Adornos de cerámica pintados a mano" },
    { id := 5, name := "Velas aromáticas", price := 15000,
      desc := "Aroma canela y naranja, ideal para ambiente navideño" },
    { id := 6, name := "Guirnalda LED", price := 22000,
      desc := "Luces cálidas para decorar tu hogar" },
    { id := 7, name := "Calcetín navideño grande", price := 10000,
      desc := "Para colgar en la chimenea o pared" },
    { id := 8, name := "Muñeco de nieve decorativo", price := 30000,
      desc := "Figura de mesa con detalles brillantes" } ]

/-- One cart line item: the object `\x7b...product, qty\x7d` stored at
`cart[id]` by `addToCart` (`script.js` line 136).  The object spread copies
`id`, `name`, `price` and `desc` from the catalog product and adds `qty`. -/
structure CartEntry where
  id : Int
  name : String
  price : Nat
  desc : String
  qty : Nat
deriving DecidableEq, Repr

/-- The cart state: the JS object `cart` (`script.js` line 19), a mapping
from product-id keys to entries, modelled as an association list.  JS object
keys are unique; iteration order of the model list stands in for the JS key
iteration order (no claim depends on it). -/
abbrev Cart := List (Int × CartEntry)

/-- Lookup of `cart[id]` (`undefined` becomes `none`). -/
def lookupEntry (c : Cart) (id : Int) : Option CartEntry :=
  (c.find? (fun kv => kv.1 == id)).map (fun kv => kv.2)

/-- The quantity stored for an id, `0` when no entry exists. -/
def qtyOf (c : Cart) (id : Int) : Nat :=
  match lookupEntry c id with
  | none => 0
  | some e => e.qty

/-- The in-place update `cart[id].qty += 1` / `cart[id].qty++`
(`script.js` lines 138 and 191) on the association-list model. -/
def bumpQty : Cart → Int → Cart
  | [], _ => []
  | kv :: rest, id =>
    (if kv.1 == id then (kv.1, { kv.2 with qty := kv.2.qty + 1 }) else kv)
      :: bumpQty rest id

/-- The in-place update `cart[id].qty--` (`script.js` line 193; JS clamps
nothing, but entries only ever hold non-negative quantities, so `Nat`
subtraction agrees with the JS result on every reachable state). -/
def decQty : Cart → Int → Cart
  | [], _ => []
  | kv :: rest, id =>
    (if kv.1 == id then (kv.1, { kv.2 with qty := kv.2.qty - 1 }) else kv)
      :: decQty rest id

/-- `delete cart[id]` (`script.js` lines 195 and 198). -/
def eraseKey (c : Cart) (id : Int) : Cart :=
  c.filter (fun kv => !(kv.1 == id))

/-- `addToCart` (`script.js` lines 131-142): look the id up in the catalog,
silently return on a miss, otherwise create a fresh `qty := 0` entry when
none exists and then increment the quantity by one. -/
def addToCart (c : Cart) (id : Int) : Cart :=
  match products.find? (fun p => p.id == id) with
  | none => c
  | some p =>
    match lookupEntry c id with
    | some _ => bumpQty c id
    | none =>
      bumpQty
        (c ++ [(id, { id := p.id, name := p.name, price := p.price,
                      desc := p.desc, qty := 0 })]) id

/-- The `data-op="plus"` handler branch (`script.js` lines 190-191):
`cart[id].qty++`.  On an absent entry the source dereferences `undefined`
and throws a `TypeError`; the model returns `none` there. -/
def incrementOp (c : Cart) (id : Int) : Option Cart :=
  match lookupEntry c id with
  | none => none
  | some _ => some (bumpQty c id)

/-- The `data-op="minus"` handler branch (`script.js` lines 192-196):
`cart[id].qty--` followed by `delete cart[id]` when the updated quantity is
`<= 0`.  On an absent entry the source throws a `TypeError` (`none` here). -/
def decrementOp (c : Cart) (id : Int) : Option Cart :=
  match lookupEntry c id with
  | none => none
  | some e =>
    let c' := decQty c id
    if e.qty - 1 = 0 then some (eraseKey c' id) else some c'

/-- The `data-op="remove"` handler branch (`script.js` lines 197-199):
`delete cart[id]`, a no-op on an absent key. -/
def removeOp (c : Cart) (id : Int) : Cart := eraseKey c id

/-- The five user-triggered cart mutations: add (product grid button),
plus / minus / remove (cart panel buttons), and the clear buttons
(`script.js` lines 214-229, `cart = \x7b\x7d`). -/
inductive Op where
  | add (id : Int)
  | increment (id : Int)
  | decrement (id : Int)
  | remove (id : Int)
  | clear

/-- One user action applied to the cart; `none` models a thrown JS
exception. -/
def applyOp (c : Cart) : Op → Option Cart
  | Op.add id => some (addToCart c id)
  | Op.increment id => incrementOp c id
  | Op.decrement id => decrementOp c id
  | Op.remove id => some (removeOp c id)
  | Op.clear => some []

/-- A sequence of user actions; stops with `none` as soon as one throws. -/
def runOps : Cart → List Op → Option Cart
  | c, [] => some c
  | c, op :: ops =>
    match applyOp c op with
    | none => none
    | some c' => runOps c' ops

/-- The order total as computed by `renderCart` and the checkout handler
(`script.js` lines 157-159 and 265-270): a running integer sum of
`item.qty * item.price` over the entries. -/
def orderTotal (c : Cart) : Nat :=
  c.foldl (fun t kv => t + kv.2.qty * kv.2.price) 0

/-- Well-formedness of a cart as the JS runtime guarantees it: object keys
are unique, and (the engine invariant) every stored quantity is at least 1. -/
def cartWF (c : Cart) : Prop :=
  (c.map (fun kv => kv.1)).Nodup ∧ ∀ kv ∈ c, 1 ≤ kv.2.qty

instance (c : Cart) : Decidable (cartWF c) := by
  unfold cartWF; infer_instance

/-- The spec's two structural cart invariants (spec §3): every key equals
the `id` field of its entry, and every key names a catalog product. -/
def cartKeysOk (c : Cart) : Bool :=
  c.all (fun kv => kv.1 == kv.2.id && products.any (fun p => p.id == kv.1))

/-- `formatMoney`'s regex `\B(?=(\d\x7b3\x7d)+(?!\d))` (`script.js` line 43)
on an all-digit string: a dot is inserted after a digit exactly when a
positive multiple of three digits remains. -/
def groupDigits : List Char → List Char
  | [] => []
  | c :: rest =>
    c :: (if rest.length ≠ 0 ∧ rest.length % 3 = 0
          then '.' :: groupDigits rest
          else groupDigits rest)

/-- `formatMoney` (`script.js` lines 42-44): currency prefix plus the
decimal digits with thousands separators. -/
def formatMoney (n : Nat) : String :=
  "$" ++ String.mk (groupDigits (natToChars n))

/-- Clusters of three digits counted from the head of the (reversed,
least-significant-first) digit list — the spec's wording of grouping
(spec §4.4). -/
def chunk3 : List Char → List (List Char)
  | [] => []
  | [a] => [[a]]
  | [a, b] => [[a, b]]
  | a :: b :: c :: rest => [a, b, c] :: chunk3 rest

/-- Joins digit clusters with the separator. -/
def joinDots : List (List Char) → List Char
  | [] => []
  | [g] => g
  | g :: gs => g ++ '.' :: joinDots gs

/-- Modelled from the spec's words (§4.4): digits grouped in clusters of
exactly three counted from the least-significant digit, a separator between
clusters, and the currency prefix.  Used as the comparison point for the
refinement claim about `formatMoney`. -/
def formatMoneySpec (n : Nat) : String :=
  "$" ++ String.mk ((joinDots (chunk3 (natToChars n).reverse)).reverse)

/-- The entity replacement target of one `String.prototype.replace` call:
every occurrence of character `c` becomes the list `r`. -/
def replaceAll (l : List Char) (c : Char) (r : List Char) : List Char :=
  l.flatMap (fun x => if x = c then r else [x])

/-- Entity form of an ampersand. -/
def entAmp : List Char := ['&', 'a', 'm', 'p', ';']

/-- Entity form of a less-than sign. -/
def entLt : List Char := ['&', 'l', 't', ';']

/-- Entity form of a greater-than sign. -/
def entGt : List Char := ['&', 'g', 't', ';']

/-- Entity form of a double quote. -/
def entQuot : List Char := ['&', 'q', 'u', 'o', 't', ';']

/-- Entity form of a single quote. -/
def entApos : List Char := ['&', '#', '0', '3', '9', ';']

/-- `escapeHtml` (`script.js` lines 51-53) on the character list: the five
chained `replace` calls, in source order. -/
def escapeHtmlChars (l : List Char) : List Char :=
  replaceAll
    (replaceAll
      (replaceAll
        (replaceAll
          (replaceAll l '&' entAmp) '<' entLt) '>' entGt) '"' entQuot)
    squote entApos

/-- `escapeHtml` (`script.js` lines 51-53). -/
def escapeHtml (s : String) : String := String.mk (escapeHtmlChars s.toList)

/-- Modelled from the spec's words (§4.4): the per-character entity map —
each of the five special characters becomes its entity form, every other
character is left unchanged.  Comparison point for the refinement claim
about `escapeHtml`. -/
def entityOf (c : Char) : List Char :=
  if c = '&' then entAmp
  else if c = '<' then entLt
  else if c = '>' then entGt
  else if c = '"' then entQuot
  else if c = squote then entApos
  else [c]

/-- Modelled from the spec's words (§4.4): `escapeText` as a single
order-preserving character-wise substitution. -/
def escapeTextSpec (s : String) : String := String.mk (s.toList.flatMap entityOf)

/-- Lowercase hexadecimal digit character, as emitted by `JSON.stringify`
in `\u00XX` escapes. -/
def hexChar (d : Nat) : Char :=
  if d < 10 then Char.ofNat (48 + d) else Char.ofNat (87 + d)

/-- Value of a hexadecimal digit character, as accepted by `JSON.parse`. -/
def hexVal (c : Char) : Option Nat :=
  if '0' ≤ c ∧ c ≤ '9' then some (c.toNat - 48)
  else if 'a' ≤ c ∧ c ≤ 'f' then some (c.toNat - 87)
  else if 'A' ≤ c ∧ c ≤ 'F' then some (c.toNat - 55)
  else none

/-- `JSON.stringify`'s escaping of one character inside a string literal:
quote and backslash are backslash-escaped, control characters use the
two-character shortcuts or a `\u00XX` escape, everything else is emitted
literally. -/
def escChar (c : Char) : List Char :=
  if c = '"' then ['\\', '"']
  else if c = '\\' then ['\\', '\\']
  else if c.toNat < 32 then
    if c.toNat = 8 then ['\\', 'b']
    else if c.toNat = 9 then ['\\', 't']
    else if c.toNat = 10 then ['\\', 'n']
    else if c.toNat = 12 then ['\\', 'f']
    else if c.toNat = 13 then ['\\', 'r']
    else ['\\', 'u', '0', '0', hexChar (c.toNat / 16), hexChar (c.toNat % 16)]
  else [c]

/-- `JSON.stringify`'s escaping of a whole string body. -/
def escapeChars : List Char → List Char
  | [] => []
  | c :: rest => escChar c ++ escapeChars rest

/-- Fuel-indexed body of `JSON.parse`'s string-literal scanner: consumes
characters up to and including the closing quote, undoing the escapes of
`escChar` (plus the `\/` escape `JSON.parse` also accepts).  Lone-surrogate
`\uXXXX` pairing is not modelled; `JSON.stringify` never emits it for the
data this program stores. -/
def parseStrBodyAux : Nat → List Char → Option (List Char × List Char)
  | 0, _ => none
  | _ + 1, [] => none
  | fuel + 1, c :: rest =>
    if c = '"' then some ([], rest)
    else if c = '\\' then
      match rest with
      | [] => none
      | e :: rest' =>
        if e = '"' then
          (parseStrBodyAux fuel rest').map (fun p => ('"' :: p.1, p.2))
        else if e = '\\' then
          (parseStrBodyAux fuel rest').map (fun p => ('\\' :: p.1, p.2))
        else if e = '/' then
          (parseStrBodyAux fuel rest').map (fun p => ('/' :: p.1, p.2))
        else if e = 'b' then
          (parseStrBodyAux fuel rest').map (fun p => (Char.ofNat 8 :: p.1, p.2))
        else if e = 't' then
          (parseStrBodyAux fuel rest').map (fun p => (Char.ofNat 9 :: p.1, p.2))
        else if e = 'n' then
          (parseStrBodyAux fuel rest').map (fun p => (Char.ofNat 10 :: p.1, p.2))
        else if e = 'f' then
          (parseStrBodyAux fuel rest').map (fun p => (Char.ofNat 12 :: p.1, p.2))
        else if e = 'r' then
          (parseStrBodyAux fuel rest').map (fun p => (Char.ofNat 13 :: p.1, p.2))
        else if e = 'u' then
          match rest' with
          | h1 :: h2 :: h3 :: h4 :: rest2 =>
            match hexVal h1, hexVal h2, hexVal h3, hexVal h4 with
            | some a, some b, some c2, some d =>
              (parseStrBodyAux fuel rest2).map
                (fun p => (Char.ofNat (((a * 16 + b) * 16 + c2) * 16 + d) :: p.1, p.2))
            | _, _, _, _ => none
          | _ => none
        else none
    else (parseStrBodyAux fuel rest).map (fun p => (c :: p.1, p.2))

/-- String-literal body scanner with its fuel fixed to the input length. -/
def parseStrBody (l : List Char) : Option (List Char × List Char) :=
  parseStrBodyAux (l.length + 1) l

/-- Digit-run scanner with an accumulator (the core of number parsing). -/
def parseNatAux : List Char → Nat → Nat × List Char
  | [], acc => (acc, [])
  | c :: rest, acc =>
    if c.isDigit then parseNatAux rest (acc * 10 + (c.toNat - 48))
    else (acc, c :: rest)

/-- Parses a non-negative integer literal (at least one digit). -/
def parseNum (l : List Char) : Option (Nat × List Char) :=
  match l with
  | [] => none
  | c :: rest =>
    if c.isDigit then some (parseNatAux rest (c.toNat - 48)) else none

/-- Parses an integer literal with an optional leading minus sign. -/
def parseIntLit (l : List Char) : Option (Int × List Char) :=
  match l with
  | [] => none
  | c :: rest =>
    if c = '-' then (parseNum rest).map (fun p => (-(p.1 : Int), p.2))
    else (parseNum l).map (fun p => ((p.1 : Int), p.2))

/-- Consumes one expected character. -/
def expectCh (c : Char) (l : List Char) : Option (List Char) :=
  match l with
  | [] => none
  | d :: rest => if d = c then some rest else none

/-- Consumes an expected literal character sequence. -/
def expectLit : List Char → List Char → Option (List Char)
  | [], l => some l
  | _ :: _, [] => none
  | c :: cs, d :: l => if d = c then expectLit cs l else none

/-- The key/value separator piece `"id":` of the serialized entry. -/
def litId : List Char := ['"', 'i', 'd', '"', ':']

/-- The piece `,"name":"` of the serialized entry. -/
def litName : List Char := [',', '"', 'n', 'a', 'm', 'e', '"', ':', '"']

/-- The piece `,"price":` of the serialized entry. -/
def litPrice : List Char := [',', '"', 'p', 'r', 'i', 'c', 'e', '"', ':']

/-- The piece `,"desc":"` of the serialized entry. -/
def litDesc : List Char := [',', '"', 'd', 'e', 's', 'c', '"', ':', '"']

/-- The piece `,"qty":` of the serialized entry. -/
def litQty : List Char := [',', '"', 'q', 't', 'y', '"', ':']

/-- `JSON.stringify`'s output for one cart entry under its key: the key is
a (numeric) object key serialized as a string, the value an object whose
fields appear in insertion order `id, name, price, desc, qty` (the order
`addToCart` creates them in, `script.js` line 136). -/
def encodeEntry (kv : Int × CartEntry) : List Char :=
  '"' :: (intToChars kv.1 ++ ('"' :: ':' :: obrace ::
    (litId ++ (intToChars kv.2.id ++
      (litName ++ (escapeChars kv.2.name.toList ++
        ('"' :: (litPrice ++ (natToChars kv.2.price ++
          (litDesc ++ (escapeChars kv.2.desc.toList ++
            ('"' :: (litQty ++ (natToChars kv.2.qty ++ [cbrace]))))))))))))))

/-- The comma-separated entry list inside the serialized cart object. -/
def encodeEntries : Cart → List Char
  | [] => []
  | [kv] => encodeEntry kv
  | kv :: rest => encodeEntry kv ++ ',' :: encodeEntries rest

/-- `JSON.stringify(cart)` (`script.js` line 146). -/
def encodeCart (c : Cart) : String :=
  String.mk (obrace :: (encodeEntries c ++ [cbrace]))

/-- Scanner for the quoted numeric key of one serialized entry, up to and
including the following colon.  `JSON.parse` accepts more general JSON
(reordered fields, inter-token whitespace, fractional numbers, non-numeric
keys); the model covers exactly the shape `persistCart` writes, which is
the only shape the round-trip and rejection claims exercise. -/
def parseEntryKey (l : List Char) : Option (Int × List Char) := do
  let l ← expectCh '"' l
  let (k, l) ← parseIntLit l
  let l ← expectCh '"' l
  let l ← expectCh ':' l
  pure (k, l)

/-- Scanner for the `id` and `name` fields of the serialized entry value,
including the value's opening brace. -/
def parseValA (l : List Char) : Option ((Int × List Char) × List Char) := do
  let l ← expectCh obrace l
  let l ← expectLit litId l
  let (pid, l) ← parseIntLit l
  let l ← expectLit litName l
  let (nm, l) ← parseStrBody l
  pure ((pid, nm), l)

/-- Scanner for the `price` and `desc` fields of the serialized entry
value. -/
def parseValB (l : List Char) : Option ((Nat × List Char) × List Char) := do
  let l ← expectLit litPrice l
  let (pr, l) ← parseNum l
  let l ← expectLit litDesc l
  let (dsc, l) ← parseStrBody l
  pure ((pr, dsc), l)

/-- Scanner for the `qty` field and the closing brace of the serialized
entry value. -/
def parseValC (l : List Char) : Option (Nat × List Char) := do
  let l ← expectLit litQty l
  let (q, l) ← parseNum l
  let l ← expectCh cbrace l
  pure (q, l)

/-- Scanner for one serialized entry: the quoted numeric key, the colon,
and the value object in the field order `persistCart` writes. -/
def parseEntry (l : List Char) : Option ((Int × CartEntry) × List Char) := do
  let (k, l) ← parseEntryKey l
  let ((pid, nm), l) ← parseValA l
  let ((pr, dsc), l) ← parseValB l
  let (q, l) ← parseValC l
  pure ((k, { id := pid, name := String.mk nm, price := pr,
              desc := String.mk dsc, qty := q }), l)

/-- Fuel-indexed scanner for the non-empty comma-separated entry list,
including the closing brace of the cart object. -/
def parseEntriesAux : Nat → List Char → Option (Cart × List Char)
  | 0, _ => none
  | fuel + 1, l =>
    (parseEntry l).bind (fun p =>
      match p.2 with
      | c :: r =>
        if c = ',' then
          (parseEntriesAux fuel r).map (fun q => (p.1 :: q.1, q.2))
        else if c = cbrace then some ([p.1], r)
        else none
      | [] => none)

/-- Scanner for the whole serialized cart object. -/
def parseCartChars (l : List Char) : Option (Cart × List Char) :=
  match l with
  | [] => none
  | c :: r =>
    if c = obrace then
      match r with
      | d :: r' => if d = cbrace then some ([], r') else parseEntriesAux (r.length + 1) r
      | [] => none
    else none

/-- `JSON.parse` applied to a persisted cart string (`script.js` line 19):
`some` is a successful parse consuming the whole input, `none` models the
`SyntaxError` the source throws on malformed input. -/
def decodeCart (s : String) : Option Cart :=
  match parseCartChars s.toList with
  | some (c, []) => some c
  | _ => none

/-- The serialized empty object. -/
def emptyObjStr : String := String.mk [obrace, cbrace]

/-- The startup expression `JSON.parse(localStorage.getItem(..) || const)`
(`script.js` line 19): an absent (`null` → `none`) or empty stored value
falls back to the empty-object literal before parsing. -/
def loadCart (s : Option String) : Option Cart :=
  decodeCart
    (match s with
     | none => emptyObjStr
     | some t => if t = "" then emptyObjStr else t)

/-- Characters `encodeURIComponent` leaves unescaped: ASCII alphanumerics
and `- _ . ! ~ * ( )` and the single quote. -/
def uriUnreserved (c : Char) : Bool :=
  (c.isAlpha && c.toNat < 128) || c.isDigit ||
    c = '-' || c = '_' || c = '.' || c = '!' || c = '~' || c = '*' ||
    c = '(' || c = ')' || c = squote

/-- Uppercase hexadecimal digit character, as emitted by
`encodeURIComponent`. -/
def hexUpper (d : Nat) : Char :=
  if d < 10 then Char.ofNat (48 + d) else Char.ofNat (55 + d)

/-- JS `encodeURIComponent`: reserved characters become percent-encoded
UTF-8 bytes. -/
def encodeURIComponent (s : String) : String :=
  String.mk (s.toList.flatMap (fun c =>
    if uriUnreserved c then [c]
    else (String.singleton c).toUTF8.toList.flatMap (fun b =>
      ['%', hexUpper (b.toNat / 16), hexUpper (b.toNat % 16)])))

/-- One row of the checkout summary table (`script.js` line 268). -/
def summaryRow (it : CartEntry) : String :=
  "<tr><td>" ++ escapeHtml it.name ++ "</td><td>" ++
    String.mk (natToChars it.qty) ++ "</td><td>" ++ formatMoney it.price ++
    "</td><td>" ++ formatMoney (it.qty * it.price) ++ "</td></tr>"

/-- One line of the WhatsApp message (`script.js` line 278). -/
def waLine (it : CartEntry) : String :=
  encodeURIComponent
    (String.mk (natToChars it.qty) ++ " x " ++ it.name ++ " - " ++
      formatMoney (it.price * it.qty)) ++ "%0A"

/-- The checkout click handler (`script.js` lines 250-300), up to the point
where the produced strings are handed to the display surface: on an empty
cart it alerts and returns producing nothing; otherwise it builds the
summary document and the WhatsApp URL.  The second component is the cart
variable after the handler runs — the handler never assigns to it. -/
def checkoutClick (now : String) (cart : Cart) : Option (String × String) × Cart :=
  let items := cart.map (fun kv => kv.2)
  if items.length = 0 then (none, cart)
  else
    let htmlHead :=
      "<!doctype html><html><head><meta charset=\"utf-8\"><meta name=\"viewport\" content=\"width=device-width,initial-scale=1\"><title>Resumen de pedido</title><link rel=\"stylesheet\" href=\"style.css\"></head><body class=\"checkout-summary\">" ++
      "<h1>Resumen de pedido — Tienda Navideña</h1><p class=\"small\">Fecha: " ++
      now ++
      "</p><table><thead><tr><th>Producto</th><th>Cantidad</th><th>Precio Unitario</th><th>Subtotal</th></tr></thead><tbody>"
    let rows := items.foldl (fun acc it => acc ++ summaryRow it) ""
    let total := items.foldl (fun t it => t + it.qty * it.price) 0
    let htmlContent := htmlHead ++ rows ++
      "</tbody><tfoot><tr><td colspan=\"3\">Total</td><td>" ++
      formatMoney total ++ "</td></tr></tfoot></table>" ++
      "<p>Gracias por su compra. Para enviar este pedido por WhatsApp haga clic en el botón abajo.</p>"
    let waText :=
      "¡Hola! Me gustaría hacer un pedido de la Tienda Navideña:%0A%0A" ++
      "*Resumen del Pedido:*%0A" ++
      items.foldl (fun acc it => acc ++ waLine it) "" ++
      "%0A*Total:* " ++ encodeURIComponent (formatMoney total) ++ "%0A" ++
      "%0APor favor, confírmame la disponibilidad y los detalles de entrega. ¡Gracias!"
    let waUrl := "https://wa.me/573237918080?text=" ++ waText
    (some (htmlContent, waUrl), cart)

/-! ### Association-list lemmas for the cart operations -/

theorem bumpQty_map_fst (c : Cart) (id : Int) :
    (bumpQty c id).map (fun kv => kv.1) = c.map (fun kv => kv.1) := by
  induction c with
  | nil => rfl
  | cons hd rest ih =>
    simp only [bumpQty, List.map_cons, ih]
    split <;> rfl

theorem decQty_map_fst (c : Cart) (id : Int) :
    (decQty c id).map (fun kv => kv.1) = c.map (fun kv => kv.1) := by
  induction c with
  | nil => rfl
  | cons hd rest ih =>
    simp only [decQty, List.map_cons, ih]
    split <;> rfl

theorem mem_bumpQty {kv : Int × CartEntry} {c : Cart} {id : Int}
    (h : kv ∈ bumpQty c id) :
    ∃ kv' ∈ c,
      kv = if kv'.1 == id then (kv'.1, { kv'.2 with qty := kv'.2.qty + 1 })
           else kv' := by
  induction c with
  | nil => simp [bumpQty] at h
  | cons hd rest ih =>
    simp only [bumpQty, List.mem_cons] at h
    rcases h with h | h
    · exact ⟨hd, by simp, h⟩
    · obtain ⟨kv', hm, he⟩ := ih h
      exact ⟨kv', by simp [hm], he⟩

theorem mem_decQty {kv : Int × CartEntry} {c : Cart} {id : Int}
    (h : kv ∈ decQty c id) :
    ∃ kv' ∈ c,
      kv = if kv'.1 == id then (kv'.1, { kv'.2 with qty := kv'.2.qty - 1 })
           else kv' := by
  induction c with
  | nil => simp [decQty] at h
  | cons hd rest ih =>
    simp only [decQty, List.mem_cons] at h
    rcases h with h | h
    · exact ⟨hd, by simp, h⟩
    · obtain ⟨kv', hm, he⟩ := ih h
      exact ⟨kv', by simp [hm], he⟩

theorem lookupEntry_eq_none_iff (c : Cart) (id : Int) :
    lookupEntry c id = none ↔ ∀ kv ∈ c, kv.1 ≠ id := by
  simp [lookupEntry, List.find?_eq_none]

theorem lookupEntry_cons (hd : Int × CartEntry) (rest : Cart) (j : Int) :
    lookupEntry (hd :: rest) j =
      if hd.1 = j then some hd.2 else lookupEntry rest j := by
  by_cases h : hd.1 = j
  · unfold lookupEntry
    rw [List.find?_cons_of_pos _ (by simpa using h), if_pos h]
    rfl
  · unfold lookupEntry
    rw [List.find?_cons_of_neg _ (by simpa using h), if_neg h]

theorem bumpQty_cons (hd : Int × CartEntry) (rest : Cart) (id : Int) :
    bumpQty (hd :: rest) id =
      (if hd.1 = id then (hd.1, { hd.2 with qty := hd.2.qty + 1 }) else hd)
        :: bumpQty rest id := by
  by_cases h : hd.1 = id
  · simp only [bumpQty, if_pos (show (hd.1 == id) = true by simpa using h), if_pos h]
  · simp only [bumpQty, if_neg (show ¬(hd.1 == id) = true by simpa using h), if_neg h]

theorem decQty_cons (hd : Int × CartEntry) (rest : Cart) (id : Int) :
    decQty (hd :: rest) id =
      (if hd.1 = id then (hd.1, { hd.2 with qty := hd.2.qty - 1 }) else hd)
        :: decQty rest id := by
  by_cases h : hd.1 = id
  · simp only [decQty, if_pos (show (hd.1 == id) = true by simpa using h), if_pos h]
  · simp only [decQty, if_neg (show ¬(hd.1 == id) = true by simpa using h), if_neg h]

theorem lookupEntry_bumpQty_self (c : Cart) (id : Int) :
    lookupEntry (bumpQty c id) id =
      (lookupEntry c id).map (fun e => { e with qty := e.qty + 1 }) := by
  induction c with
  | nil => rfl
  | cons hd rest ih =>
    rw [bumpQty_cons]
    by_cases h : hd.1 = id
    · rw [if_pos h, lookupEntry_cons, lookupEntry_cons, if_pos h]
      simp [h]
    · rw [if_neg h, lookupEntry_cons, lookupEntry_cons, if_neg h, if_neg h, ih]

theorem lookupEntry_bumpQty_ne (c : Cart) {id j : Int} (h : j ≠ id) :
    lookupEntry (bumpQty c id) j = lookupEntry c j := by
  induction c with
  | nil => rfl
  | cons hd rest ih =>
    rw [bumpQty_cons]
    by_cases hh : hd.1 = id
    · have hj : hd.1 ≠ j := by rw [hh]; exact fun e => h e.symm
      rw [if_pos hh, lookupEntry_cons, lookupEntry_cons, if_neg hj, if_neg (by simpa using hj), ih]
    · rw [if_neg hh, lookupEntry_cons, lookupEntry_cons, ih]

theorem lookupEntry_append_self {c : Cart} {id : Int}
    (h : lookupEntry c id = none) (e : CartEntry) :
    lookupEntry (c ++ [(id, e)]) id = some e := by
  induction c with
  | nil => simp [lookupEntry]
  | cons hd rest ih =>
    rw [lookupEntry_eq_none_iff] at h
    have hh : hd.1 ≠ id := h hd (by simp)
    have hr : lookupEntry rest id = none := by
      rw [lookupEntry_eq_none_iff]
      exact fun kv hm => h kv (by simp [hm])
    rw [List.cons_append, lookupEntry_cons, if_neg hh]
    exact ih hr

theorem lookupEntry_append_ne (c : Cart) {id j : Int} (h : j ≠ id)
    (e : CartEntry) :
    lookupEntry (c ++ [(id, e)]) j = lookupEntry c j := by
  induction c with
  | nil =>
    have : (id : Int) ≠ j := fun e => h e.symm
    simp [lookupEntry_cons, this, lookupEntry]
  | cons hd rest ih =>
    rw [List.cons_append, lookupEntry_cons, lookupEntry_cons, ih]

theorem lookupEntry_eraseKey_self (c : Cart) (id : Int) :
    lookupEntry (eraseKey c id) id = none := by
  rw [lookupEntry_eq_none_iff]
  intro kv hm
  have := List.of_mem_filter hm
  simpa using this

theorem mem_eraseKey {kv : Int × CartEntry} {c : Cart} {id : Int}
    (h : kv ∈ eraseKey c id) : kv ∈ c ∧ kv.1 ≠ id := by
  refine ⟨List.mem_of_mem_filter h, ?_⟩
  have := List.of_mem_filter h
  simpa using this

theorem eraseKey_map_fst_sublist (c : Cart) (id : Int) :
    ((eraseKey c id).map (fun kv => kv.1)).Sublist (c.map (fun kv => kv.1)) :=
  (List.filter_sublist c).map (fun kv => kv.1)

/-- With unique keys, any member whose key matches the searched id is the
entry `find?` returns. -/
theorem find_key_unique {c : Cart} {id : Int} {kv0 kv : Int × CartEntry}
    (hnd : (c.map (fun kv => kv.1)).Nodup)
    (hf : c.find? (fun kv => kv.1 == id) = some kv0)
    (hm : kv ∈ c) (hk : kv.1 = id) : kv = kv0 := by
  induction c with
  | nil => simp at hm
  | cons hd rest ih =>
    simp only [List.map_cons, List.nodup_cons] at hnd
    by_cases hh : hd.1 = id
    · rw [List.find?_cons_of_pos _ (by simpa using hh)] at hf
      rcases List.mem_cons.mp hm with rfl | hmr
      · exact Option.some_injective _ hf
      · exfalso
        exact hnd.1 (by
          rw [hh, ← hk]
          exact List.mem_map_of_mem (fun kv => kv.1) hmr)
    · rw [List.find?_cons_of_neg _ (by simpa using hh)] at hf
      rcases List.mem_cons.mp hm with rfl | hmr
      · exact absurd hk hh
      · exact ih hnd.2 hf hmr

/-! ### Preservation of cart well-formedness -/

theorem cartWF_bumpQty {c : Cart} (h : cartWF c) (id : Int) :
    cartWF (bumpQty c id) := by
  refine ⟨by rw [bumpQty_map_fst]; exact h.1, fun kv hm => ?_⟩
  obtain ⟨kv', hm', he⟩ := mem_bumpQty hm
  split at he
  · rw [he]
    simp
  · rw [he]
    exact h.2 kv' hm'

theorem cartWF_addToCart {c : Cart} (h : cartWF c) (id : Int) :
    cartWF (addToCart c id) := by
  unfold addToCart
  cases hf : products.find? (fun p => p.id == id) with
  | none => exact h
  | some p =>
    cases hl : lookupEntry c id with
    | some e => exact cartWF_bumpQty h id
    | none =>
      rw [lookupEntry_eq_none_iff] at hl
      have hid : id ∉ c.map (fun kv => kv.1) := by
        simp only [List.mem_map]
        rintro ⟨kv, hm, rfl⟩
        exact hl kv hm rfl
      constructor
      · rw [bumpQty_map_fst, List.map_append]
        simp only [List.map_cons, List.map_nil]
        rw [List.nodup_append]
        exact ⟨h.1, List.nodup_singleton id, by simpa using hid⟩
      · intro kv hm
        obtain ⟨kv', hm', he⟩ := mem_bumpQty hm
        rcases List.mem_append.mp hm' with hmc | hmn
        · have : kv'.1 ≠ id := hl kv' hmc
          rw [he, if_neg (by simpa using this)]
          exact h.2 kv' hmc
        · have hx := List.mem_singleton.mp hmn
          rw [he, hx]
          simp

theorem cartWF_eraseKey {c : Cart} (h : cartWF c) (id : Int) :
    cartWF (eraseKey c id) := by
  refine ⟨(eraseKey_map_fst_sublist c id).nodup h.1, fun kv hm => ?_⟩
  exact h.2 kv (mem_eraseKey hm).1

theorem cartWF_decrementOp {c c' : Cart} {id : Int} (h : cartWF c)
    (hs : decrementOp c id = some c') : cartWF c' := by
  unfold decrementOp at hs
  cases hl : lookupEntry c id with
  | none => rw [hl] at hs; exact absurd hs (by simp)
  | some e =>
    rw [hl] at hs
    simp only [] at hs
    split at hs
    · cases hs
      refine ⟨((eraseKey_map_fst_sublist _ id).nodup (by rw [decQty_map_fst]; exact h.1)),
        fun kv hm => ?_⟩
      obtain ⟨hmd, hne⟩ := mem_eraseKey hm
      obtain ⟨kv', hm', he⟩ := mem_decQty hmd
      split at he
      · exfalso
        apply hne
        rw [he]
        simpa using (by assumption : (kv'.1 == id) = true)
      · rw [he]
        exact h.2 kv' hm'
    · cases hs
      refine ⟨by rw [decQty_map_fst]; exact h.1, fun kv hm => ?_⟩
      obtain ⟨kv', hm', he⟩ := mem_decQty hm
      by_cases hk : kv'.1 = id
      · obtain ⟨kv0, hf0, he0⟩ := Option.map_eq_some'.mp hl
        have : kv' = kv0 := find_key_unique h.1 hf0 hm' hk
        rw [he, if_pos (by simpa using hk), this, he0]
        simp only []
        omega
      · rw [he, if_neg (by simpa using hk)]
        exact h.2 kv' hm'

theorem cartWF_applyOp {c c' : Cart} {op : Op} (h : cartWF c)
    (hs : applyOp c op = some c') : cartWF c' := by
  cases op with
  | add id => cases hs; exact cartWF_addToCart h id
  | increment id =>
    simp only [applyOp, incrementOp] at hs
    cases hl : lookupEntry c id with
    | none => rw [hl] at hs; exact absurd hs (by simp)
    | some e => rw [hl] at hs; cases hs; exact cartWF_bumpQty h id
  | decrement id => exact cartWF_decrementOp h hs
  | remove id => cases hs; exact cartWF_eraseKey h id
  | clear => cases hs; exact ⟨List.nodup_nil, by simp⟩

theorem cartWF_runOps {c c' : Cart} {ops : List Op} (h : cartWF c)
    (hr : runOps c ops = some c') : cartWF c' := by
  induction ops generalizing c with
  | nil => cases hr; exact h
  | cons op ops ih =>
    unfold runOps at hr
    cases ha : applyOp c op with
    | none => rw [ha] at hr; exact absurd hr (by simp)
    | some c1 => rw [ha] at hr; exact ih (cartWF_applyOp h ha) hr

theorem decrement_qty_one_removes {c : Cart} {id : Int} {e : CartEntry}
    (hl : lookupEntry c id = some e) (hq : e.qty = 1) :
    decrementOp c id = some (eraseKey (decQty c id) id) ∧
      lookupEntry (eraseKey (decQty c id) id) id = none := by
  constructor
  · unfold decrementOp
    rw [hl]
    simp [hq]
  · exact lookupEntry_eraseKey_self _ id

theorem eraseKey_of_lookup_none {c : Cart} {id : Int}
    (h : lookupEntry c id = none) : eraseKey c id = c := by
  rw [lookupEntry_eq_none_iff] at h
  unfold eraseKey
  apply List.filter_eq_self.mpr
  intro kv hm
  simpa using h kv hm

theorem addToCart_eq_of_found {c : Cart} {id : Int} {p : Product} {e : CartEntry}
    (hp : products.find? (fun p => p.id == id) = some p)
    (hl : lookupEntry c id = some e) : addToCart c id = bumpQty c id := by
  simp [addToCart, hp, hl]

theorem addToCart_eq_of_new {c : Cart} {id : Int} {p : Product}
    (hp : products.find? (fun p => p.id == id) = some p)
    (hl : lookupEntry c id = none) :
    addToCart c id =
      bumpQty (c ++ [(id, { id := p.id, name := p.name, price := p.price,
                            desc := p.desc, qty := 0 })]) id := by
  simp [addToCart, hp, hl]

theorem orderTotal_eq_sum (c : Cart) :
    orderTotal c = (c.map (fun kv => kv.2.qty * kv.2.price)).sum := by
  suffices h : ∀ (c : Cart) (n : Nat),
      c.foldl (fun t kv => t + kv.2.qty * kv.2.price) n =
        n + (c.map (fun kv => kv.2.qty * kv.2.price)).sum by
    simpa using h c 0
  intro c
  induction c with
  | nil => simp
  | cons hd rest ih =>
    intro n
    simp only [List.foldl_cons, List.map_cons, List.sum_cons, ih]
    omega

/-! ### Digit grouping: the separator regex against the spec's clustering -/

theorem groupDigits_cons (c : Char) (l : List Char) :
    groupDigits (c :: l) =
      c :: (if l.length ≠ 0 ∧ l.length % 3 = 0
            then '.' :: groupDigits l else groupDigits l) := rfl

theorem groupDigits_append3 (xs : List Char) (a b c : Char) :
    groupDigits (xs ++ [a, b, c]) =
      (if xs = [] then [] else groupDigits xs ++ ['.']) ++ [a, b, c] := by
  induction xs with
  | nil => simp [groupDigits]
  | cons x xs ih =>
    rw [List.cons_append, groupDigits_cons, groupDigits_cons,
      if_neg (List.cons_ne_nil x xs)]
    by_cases hx : xs = []
    · subst hx
      simp [groupDigits]
    · have hlen : xs.length ≠ 0 := by simpa [List.length_eq_zero] using hx
      have hl3 : (xs ++ [a, b, c]).length = xs.length + 3 := by simp
      by_cases hm : xs.length % 3 = 0
      · rw [if_pos (show (xs ++ [a, b, c]).length ≠ 0 ∧ (xs ++ [a, b, c]).length % 3 = 0
            by rw [hl3]; omega),
          if_pos ⟨hlen, hm⟩, ih, if_neg hx]
        simp
      · rw [if_neg (show ¬((xs ++ [a, b, c]).length ≠ 0 ∧ (xs ++ [a, b, c]).length % 3 = 0)
            by rw [hl3]; omega),
          if_neg (fun h => hm h.2), ih, if_neg hx]
        simp

theorem chunk3_eq_nil (r : List Char) : chunk3 r = [] ↔ r = [] := by
  match r with
  | [] => simp [chunk3]
  | [a] => simp [chunk3]
  | [a, b] => simp [chunk3]
  | a :: b :: c :: rest => simp [chunk3]

theorem joinDots_cons_ne {gs : List (List Char)} (h : gs ≠ []) (g : List Char) :
    joinDots (g :: gs) = g ++ '.' :: joinDots gs := by
  match gs with
  | [] => exact absurd rfl h
  | g2 :: gs' => rfl

theorem groupDigits_reverse_eq :
    ∀ r : List Char, groupDigits r.reverse = (joinDots (chunk3 r)).reverse
  | [] => by simp [groupDigits, chunk3, joinDots]
  | [a] => by simp [groupDigits, chunk3, joinDots]
  | [a, b] => by simp [groupDigits, chunk3, joinDots]
  | a :: b :: c :: rest => by
    have ih := groupDigits_reverse_eq rest
    have hrev : (a :: b :: c :: rest).reverse = rest.reverse ++ [c, b, a] := by
      simp
    rw [hrev, groupDigits_append3]
    by_cases hr : rest = []
    · subst hr
      simp [chunk3, joinDots]
    · have hrne : rest.reverse ≠ [] := by simpa using hr
      have hc : chunk3 rest ≠ [] := by simpa [chunk3_eq_nil] using hr
      rw [if_neg hrne,
        show chunk3 (a :: b :: c :: rest) = [a, b, c] :: chunk3 rest from rfl,
        joinDots_cons_ne hc, ih]
      simp

theorem formatMoney_eq_spec (n : Nat) : formatMoney n = formatMoneySpec n := by
  have h := groupDigits_reverse_eq (natToChars n).reverse
  rw [List.reverse_reverse] at h
  rw [formatMoney, formatMoneySpec, h]

/-! ### HTML escaping: the replace chain against the per-character map -/

theorem replaceAll_append (a b : List Char) (c : Char) (r : List Char) :
    replaceAll (a ++ b) c r = replaceAll a c r ++ replaceAll b c r := by
  simp [replaceAll]

theorem escapeHtmlChars_append (a b : List Char) :
    escapeHtmlChars (a ++ b) = escapeHtmlChars a ++ escapeHtmlChars b := by
  simp [escapeHtmlChars, replaceAll_append]

theorem escapeHtmlChars_single (c : Char) : escapeHtmlChars [c] = entityOf c := by
  by_cases h1 : c = '&'
  · subst h1; decide
  by_cases h2 : c = '<'
  · subst h2; decide
  by_cases h3 : c = '>'
  · subst h3; decide
  by_cases h4 : c = '"'
  · subst h4; decide
  by_cases h5 : c = squote
  · subst h5; decide
  simp [escapeHtmlChars, replaceAll, entityOf, h1, h2, h3, h4, h5]

theorem escapeHtmlChars_eq (l : List Char) :
    escapeHtmlChars l = l.flatMap entityOf := by
  induction l with
  | nil => rfl
  | cons c l ih =>
    rw [show c :: l = [c] ++ l from rfl, escapeHtmlChars_append, ih,
      escapeHtmlChars_single]
    simp

/-! ### Decimal literals round-trip through the codec -/

/-- The character after a serialized number is never a digit (so the digit
scanner stops exactly at the number's end). -/
def headNotDigit : List Char → Prop
  | [] => True
  | c :: _ => c.isDigit = false

theorem digitChar_isDigit {d : Nat} (h : d < 10) :
    (digitChar d).isDigit = true := by
  interval_cases d <;> decide

theorem digitChar_toNat {d : Nat} (h : d < 10) :
    (digitChar d).toNat - 48 = d := by
  interval_cases d <;> decide

theorem parseNatAux_digits (ds : List Nat) (acc : Nat) (rest : List Char)
    (hd : ∀ d ∈ ds, d < 10) (hr : headNotDigit rest) :
    parseNatAux (ds.map digitChar ++ rest) acc =
      (ds.foldl (fun a d => a * 10 + d) acc, rest) := by
  induction ds generalizing acc with
  | nil =>
    cases rest with
    | nil => rfl
    | cons c r =>
      simp only [headNotDigit] at hr
      simp [parseNatAux, hr]
  | cons d ds ih =>
    have hd0 : d < 10 := hd d (by simp)
    simp only [List.map_cons, List.cons_append, parseNatAux,
      digitChar_isDigit hd0, if_pos, List.foldl_cons, digitChar_toNat hd0]
    exact ih (acc * 10 + d) (fun x hx => hd x (by simp [hx]))

theorem foldl_msd (L : List Nat) (acc : Nat) :
    L.reverse.foldl (fun a d => a * 10 + d) acc =
      acc * 10 ^ L.length + Nat.ofDigits 10 L := by
  induction L generalizing acc with
  | nil => simp
  | cons d L ih =>
    rw [List.reverse_cons, List.foldl_append]
    simp only [List.foldl_cons, List.foldl_nil, ih, Nat.ofDigits_cons,
      List.length_cons, pow_succ]
    ring

theorem natToCharsAux_digits (fuel : Nat) :
    ∀ n, n < 10 ^ fuel →
      natToCharsAux fuel n = ((Nat.digits 10 n).map digitChar).reverse := by
  induction fuel with
  | zero =>
    intro n hn
    interval_cases n
    simp [natToCharsAux]
  | succ fuel ih =>
    intro n hn
    by_cases h0 : n = 0
    · subst h0
      simp [natToCharsAux]
    · have hdiv : n / 10 < 10 ^ fuel := by
        rw [Nat.div_lt_iff_lt_mul (by norm_num)]
        calc n < 10 ^ (fuel + 1) := hn
        _ = 10 ^ fuel * 10 := by rw [pow_succ]
      rw [show natToCharsAux (fuel + 1) n =
          (if n = 0 then [] else natToCharsAux fuel (n / 10) ++ [digitChar (n % 10)])
          from rfl,
        if_neg h0, ih (n / 10) hdiv,
        Nat.digits_def' (by norm_num : 1 < 10) (Nat.pos_of_ne_zero h0)]
      simp

theorem natToChars_eq (n : Nat) :
    natToChars n =
      if n = 0 then ['0'] else ((Nat.digits 10 n).map digitChar).reverse := by
  unfold natToChars
  by_cases h0 : n = 0
  · simp [h0]
  · rw [if_neg h0, if_neg h0]
    exact natToCharsAux_digits (n + 1) n
      (lt_of_lt_of_le (Nat.lt_pow_self (by norm_num) n)
        (Nat.pow_le_pow_right (by norm_num) (Nat.le_succ n)))

theorem parseNum_natToChars (n : Nat) (rest : List Char)
    (hr : headNotDigit rest) : parseNum (natToChars n ++ rest) = some (n, rest) := by
  rw [natToChars_eq]
  by_cases h0 : n = 0
  · subst h0
    rw [if_pos rfl]
    have h00 := parseNatAux_digits [] 0 rest (by simp) hr
    simp only [List.map_nil, List.nil_append, List.foldl_nil] at h00
    simp [parseNum, h00]
  · rw [if_neg h0, ← List.map_reverse]
    have hne : (Nat.digits 10 n).reverse ≠ [] := by
      simpa using Nat.digits_ne_nil_iff_ne_zero.mpr h0
    cases hM : (Nat.digits 10 n).reverse with
    | nil => exact absurd hM hne
    | cons m M =>
      have hmem : ∀ d ∈ Nat.digits 10 n, d < 10 := fun d hd =>
        Nat.digits_lt_base (by norm_num) hd
      have hm10 : m < 10 := by
        apply hmem
        rw [← List.mem_reverse, hM]
        simp
      have hM10 : ∀ d ∈ M, d < 10 := fun d hd => by
        apply hmem
        rw [← List.mem_reverse, hM]
        simp [hd]
      simp only [List.map_cons, List.cons_append, parseNum,
        digitChar_isDigit hm10, if_pos, digitChar_toNat hm10]
      rw [parseNatAux_digits M m rest hM10 hr]
      have hfold := foldl_msd (Nat.digits 10 n) 0
      rw [hM] at hfold
      simp only [List.foldl_cons, Nat.zero_mul, Nat.zero_add,
        Nat.ofDigits_digits] at hfold
      rw [hfold]

theorem natToChars_head_digit (n : Nat) :
    ∃ c cs, natToChars n = c :: cs ∧ c.isDigit = true := by
  rw [natToChars_eq]
  by_cases h0 : n = 0
  · exact ⟨'0', [], by simp [h0], by decide⟩
  · rw [if_neg h0, ← List.map_reverse]
    have hne : (Nat.digits 10 n).reverse ≠ [] := by
      simpa using Nat.digits_ne_nil_iff_ne_zero.mpr h0
    cases hM : (Nat.digits 10 n).reverse with
    | nil => exact absurd hM hne
    | cons m M =>
      have hm10 : m < 10 := by
        apply fun hd => Nat.digits_lt_base (by norm_num) hd
        rw [← List.mem_reverse, hM]
        simp
      exact ⟨digitChar m, M.map digitChar, by simp, digitChar_isDigit hm10⟩

theorem parseIntLit_intToChars (i : Int) (rest : List Char)
    (hr : headNotDigit rest) :
    parseIntLit (intToChars i ++ rest) = some (i, rest) := by
  unfold intToChars
  by_cases hneg : i < 0
  · rw [if_pos hneg]
    simp only [List.cons_append, parseIntLit, if_pos rfl]
    rw [parseNum_natToChars _ rest hr]
    have : (((-i).toNat : Int)) = -i :=
      Int.toNat_of_nonneg (by omega)
    simp [this]
  · rw [if_neg hneg]
    obtain ⟨c, cs, hc, hdig⟩ := natToChars_head_digit i.toNat
    have hcm : c ≠ '-' := by
      intro h
      rw [h] at hdig
      exact absurd hdig (by decide)
    rw [hc, List.cons_append, parseIntLit, if_neg hcm, ← List.cons_append, ← hc]
    rw [parseNum_natToChars _ rest hr]
    have : ((i.toNat : Int)) = i := Int.toNat_of_nonneg (by omega)
    simp [this]

/-! ### String literals round-trip through the codec -/

theorem hexVal_hexChar {d : Nat} (h : d < 16) : hexVal (hexChar d) = some d := by
  interval_cases d <;> decide

theorem psb_quote (f : Nat) (rest : List Char) :
    parseStrBodyAux (f + 1) ('"' :: rest) = some ([], rest) := by
  simp [parseStrBodyAux]

theorem psb_esc_quote (f : Nat) (rest : List Char) :
    parseStrBodyAux (f + 1) ('\\' :: '"' :: rest) =
      (parseStrBodyAux f rest).map (fun p => ('"' :: p.1, p.2)) := by
  simp [parseStrBodyAux]

theorem psb_esc_back (f : Nat) (rest : List Char) :
    parseStrBodyAux (f + 1) ('\\' :: '\\' :: rest) =
      (parseStrBodyAux f rest).map (fun p => ('\\' :: p.1, p.2)) := by
  simp [parseStrBodyAux]

theorem psb_esc_b (f : Nat) (rest : List Char) :
    parseStrBodyAux (f + 1) ('\\' :: 'b' :: rest) =
      (parseStrBodyAux f rest).map (fun p => (Char.ofNat 8 :: p.1, p.2)) := by
  simp [parseStrBodyAux]

theorem psb_esc_t (f : Nat) (rest : List Char) :
    parseStrBodyAux (f + 1) ('\\' :: 't' :: rest) =
      (parseStrBodyAux f rest).map (fun p => (Char.ofNat 9 :: p.1, p.2)) := by
  simp [parseStrBodyAux]

theorem psb_esc_n (f : Nat) (rest : List Char) :
    parseStrBodyAux (f + 1) ('\\' :: 'n' :: rest) =
      (parseStrBodyAux f rest).map (fun p => (Char.ofNat 10 :: p.1, p.2)) := by
  simp [parseStrBodyAux]

theorem psb_esc_f (f : Nat) (rest : List Char) :
    parseStrBodyAux (f + 1) ('\\' :: 'f' :: rest) =
      (parseStrBodyAux f rest).map (fun p => (Char.ofNat 12 :: p.1, p.2)) := by
  simp [parseStrBodyAux]

theorem psb_esc_r (f : Nat) (rest : List Char) :
    parseStrBodyAux (f + 1) ('\\' :: 'r' :: rest) =
      (parseStrBodyAux f rest).map (fun p => (Char.ofNat 13 :: p.1, p.2)) := by
  simp [parseStrBodyAux]

theorem psb_esc_u (f : Nat) (h1 h2 h3 h4 : Char) (rest : List Char)
    (a b c2 d : Nat) (e1 : hexVal h1 = some a) (e2 : hexVal h2 = some b)
    (e3 : hexVal h3 = some c2) (e4 : hexVal h4 = some d) :
    parseStrBodyAux (f + 1) ('\\' :: 'u' :: h1 :: h2 :: h3 :: h4 :: rest) =
      (parseStrBodyAux f rest).map
        (fun p => (Char.ofNat (((a * 16 + b) * 16 + c2) * 16 + d) :: p.1, p.2)) := by
  simp [parseStrBodyAux, e1, e2, e3, e4]

theorem psb_plain (f : Nat) {c : Char} (rest : List Char)
    (h1 : c ≠ '"') (h2 : c ≠ '\\') :
    parseStrBodyAux (f + 1) (c :: rest) =
      (parseStrBodyAux f rest).map (fun p => (c :: p.1, p.2)) := by
  simp [parseStrBodyAux, h1, h2]

theorem one_le_escChar_length (c : Char) : 1 ≤ (escChar c).length := by
  unfold escChar
  split_ifs <;> simp

theorem escapeChars_length (s : List Char) :
    s.length ≤ (escapeChars s).length := by
  induction s with
  | nil => simp [escapeChars]
  | cons c s ih =>
    have := one_le_escChar_length c
    simp only [escapeChars, List.length_append, List.length_cons]
    omega

theorem parseStrBodyAux_escape (s : List Char) :
    ∀ (fuel : Nat) (rest : List Char), s.length < fuel →
      parseStrBodyAux fuel (escapeChars s ++ '"' :: rest) = some (s, rest) := by
  induction s with
  | nil =>
    intro fuel rest hf
    cases fuel with
    | zero => omega
    | succ f => simpa [escapeChars] using psb_quote f rest
  | cons c s ih =>
    intro fuel rest hf
    cases fuel with
    | zero => omega
    | succ f =>
      have hfs : s.length < f := by
        simp only [List.length_cons] at hf
        omega
      rw [show escapeChars (c :: s) = escChar c ++ escapeChars s from rfl]
      by_cases hq : c = '"'
      · subst hq
        rw [show escChar '"' = ['\\', '"'] from by decide]
        simp only [List.cons_append, List.nil_append]
        rw [psb_esc_quote, ih f rest hfs]
        rfl
      by_cases hb : c = '\\'
      · subst hb
        rw [show escChar '\\' = ['\\', '\\'] from by decide]
        simp only [List.cons_append, List.nil_append]
        rw [psb_esc_back, ih f rest hfs]
        rfl
      by_cases hctrl : c.toNat < 32
      · by_cases h8 : c.toNat = 8
        · rw [show escChar c = ['\\', 'b'] from by
            unfold escChar
            rw [if_neg hq, if_neg hb, if_pos hctrl, if_pos h8]]
          simp only [List.cons_append, List.nil_append]
          rw [psb_esc_b, ih f rest hfs]
          have hc : Char.ofNat 8 = c := by rw [← h8]; exact Char.ofNat_toNat c
          rw [hc]
          rfl
        by_cases h9 : c.toNat = 9
        · rw [show escChar c = ['\\', 't'] from by
            unfold escChar
            rw [if_neg hq, if_neg hb, if_pos hctrl, if_neg h8, if_pos h9]]
          simp only [List.cons_append, List.nil_append]
          rw [psb_esc_t, ih f rest hfs]
          have hc : Char.ofNat 9 = c := by rw [← h9]; exact Char.ofNat_toNat c
          rw [hc]
          rfl
        by_cases h10 : c.toNat = 10
        · rw [show escChar c = ['\\', 'n'] from by
            unfold escChar
            rw [if_neg hq, if_neg hb, if_pos hctrl, if_neg h8, if_neg h9, if_pos h10]]
          simp only [List.cons_append, List.nil_append]
          rw [psb_esc_n, ih f rest hfs]
          have hc : Char.ofNat 10 = c := by rw [← h10]; exact Char.ofNat_toNat c
          rw [hc]
          rfl
        by_cases h12 : c.toNat = 12
        · rw [show escChar c = ['\\', 'f'] from by
            unfold escChar
            rw [if_neg hq, if_neg hb, if_pos hctrl, if_neg h8, if_neg h9,
              if_neg h10, if_pos h12]]
          simp only [List.cons_append, List.nil_append]
          rw [psb_esc_f, ih f rest hfs]
          have hc : Char.ofNat 12 = c := by rw [← h12]; exact Char.ofNat_toNat c
          rw [hc]
          rfl
        by_cases h13 : c.toNat = 13
        · rw [show escChar c = ['\\', 'r'] from by
            unfold escChar
            rw [if_neg hq, if_neg hb, if_pos hctrl, if_neg h8, if_neg h9,
              if_neg h10, if_neg h12, if_pos h13]]
          simp only [List.cons_append, List.nil_append]
          rw [psb_esc_r, ih f rest hfs]
          have hc : Char.ofNat 13 = c := by rw [← h13]; exact Char.ofNat_toNat c
          rw [hc]
          rfl
        · rw [show escChar c =
              ['\\', 'u', '0', '0', hexChar (c.toNat / 16), hexChar (c.toNat % 16)]
              from by
            unfold escChar
            rw [if_neg hq, if_neg hb, if_pos hctrl, if_neg h8, if_neg h9,
              if_neg h10, if_neg h12, if_neg h13]]
          simp only [List.cons_append, List.nil_append]
          have hdiv : c.toNat / 16 < 16 := by omega
          have hmod : c.toNat % 16 < 16 := by omega
          rw [psb_esc_u f '0' '0' _ _ _ 0 0 (c.toNat / 16) (c.toNat % 16)
            (by decide) (by decide) (hexVal_hexChar hdiv) (hexVal_hexChar hmod),
            ih f rest hfs]
          have harith : ((0 * 16 + 0) * 16 + c.toNat / 16) * 16 + c.toNat % 16 =
              c.toNat := by omega
          rw [harith, Char.ofNat_toNat]
          rfl
      · rw [show escChar c = [c] from by
          unfold escChar
          rw [if_neg hq, if_neg hb, if_neg hctrl]]
        rw [List.singleton_append]
        simp only [parseStrBodyAux, hq, hb, if_false, ite_false, List.append_eq]
        rw [ih f rest hfs]
        rfl

theorem parseStrBody_escape (s : List Char) (rest : List Char) :
    parseStrBody (escapeChars s ++ '"' :: rest) = some (s, rest) := by
  unfold parseStrBody
  apply parseStrBodyAux_escape
  have := escapeChars_length s
  simp only [List.length_append, List.length_cons]
  omega

/-! ### Entries and whole carts round-trip through the codec -/

theorem expectCh_cons (c : Char) (rest : List Char) :
    expectCh c (c :: rest) = some rest := by
  simp [expectCh]

theorem expectLit_append (lit : List Char) (rest : List Char) :
    expectLit lit (lit ++ rest) = some rest := by
  induction lit with
  | nil => simp [expectLit]
  | cons c cs ih => simp [expectLit, ih]

theorem string_mk_toList (s : String) : String.mk s.toList = s := by
  cases s
  rfl

theorem parseEntryKey_enc (k : Int) (X : List Char) :
    parseEntryKey ('"' :: (intToChars k ++ ('"' :: ':' :: X))) = some (k, X) := by
  simp [parseEntryKey, expectCh_cons,
    parseIntLit_intToChars k ('"' :: ':' :: X)
      (by simp only [headNotDigit]; decide)]

theorem parseValA_enc (pid : Int) (nm : List Char) (X : List Char) :
    parseValA (obrace :: (litId ++ (intToChars pid ++
        (litName ++ (escapeChars nm ++ ('"' :: X)))))) = some ((pid, nm), X) := by
  simp [parseValA, expectCh_cons, expectLit_append,
    parseIntLit_intToChars pid (litName ++ (escapeChars nm ++ ('"' :: X)))
      (by simp only [litName, headNotDigit, List.cons_append]; decide),
    parseStrBody_escape]

theorem parseValB_enc (pr : Nat) (dsc : List Char) (X : List Char) :
    parseValB (litPrice ++ (natToChars pr ++
        (litDesc ++ (escapeChars dsc ++ ('"' :: X))))) = some ((pr, dsc), X) := by
  simp [parseValB, expectLit_append,
    parseNum_natToChars pr (litDesc ++ (escapeChars dsc ++ ('"' :: X)))
      (by simp only [litDesc, headNotDigit, List.cons_append]; decide),
    parseStrBody_escape]

theorem parseValC_enc (q : Nat) (X : List Char) :
    parseValC (litQty ++ (natToChars q ++ (cbrace :: X))) = some (q, X) := by
  simp [parseValC, expectLit_append, expectCh_cons,
    parseNum_natToChars q (cbrace :: X)
      (by simp only [headNotDigit]; decide)]

theorem parseEntry_enc (kv : Int × CartEntry) (X : List Char) :
    parseEntry (encodeEntry kv ++ X) = some (kv, X) := by
  simp only [encodeEntry, List.cons_append, List.append_assoc,
    List.singleton_append]
  simp [parseEntry, parseEntryKey_enc, parseValA_enc, parseValB_enc,
    parseValC_enc, string_mk_toList]

theorem encodeEntries_length :
    ∀ c : Cart, c.length ≤ (encodeEntries c).length
  | [] => by simp [encodeEntries]
  | [kv] => by
    simp only [encodeEntries, List.length_cons, List.length_nil, encodeEntry,
      List.length_append]
    omega
  | kv :: kv2 :: c => by
    have ih := encodeEntries_length (kv2 :: c)
    simp only [show encodeEntries (kv :: kv2 :: c) =
        encodeEntry kv ++ ',' :: encodeEntries (kv2 :: c) from rfl,
      List.length_cons, List.length_append, encodeEntry]
    simp only [List.length_cons] at ih ⊢
    omega

theorem encodeEntries_cons_shape (kv : Int × CartEntry) (c : Cart) :
    ∃ B, encodeEntries (kv :: c) = '"' :: B := by
  cases c with
  | nil => exact ⟨_, rfl⟩
  | cons kv2 c => exact ⟨_, rfl⟩

theorem parseEntriesAux_enc :
    ∀ (c : Cart) (kv : Int × CartEntry) (fuel : Nat) (X : List Char),
      c.length < fuel →
      parseEntriesAux fuel (encodeEntries (kv :: c) ++ (cbrace :: X)) =
        some (kv :: c, X) := by
  intro c
  induction c with
  | nil =>
    intro kv fuel X hf
    cases fuel with
    | zero => omega
    | succ f =>
      rw [show encodeEntries [kv] = encodeEntry kv from rfl]
      simp [parseEntriesAux, parseEntry_enc kv (cbrace :: X),
        show ¬(cbrace = ',') from by decide]
  | cons kv2 c ih =>
    intro kv fuel X hf
    cases fuel with
    | zero => omega
    | succ f =>
      rw [show encodeEntries (kv :: kv2 :: c) =
          encodeEntry kv ++ ',' :: encodeEntries (kv2 :: c) from rfl,
        List.append_assoc, List.cons_append]
      have hfc : (kv2 :: c).length - 1 < f := by
        simp only [List.length_cons] at hf ⊢
        omega
      simp [parseEntriesAux,
        parseEntry_enc kv (',' :: (encodeEntries (kv2 :: c) ++ cbrace :: X)),
        ih kv2 f X (by simp only [List.length_cons] at hf ⊢; omega)]

theorem parseCartChars_cons {d : Char} (r' : List Char) (hd : d ≠ cbrace) :
    parseCartChars (obrace :: d :: r') =
      parseEntriesAux ((d :: r').length + 1) (d :: r') := by
  simp [parseCartChars, hd]

theorem decodeCart_encodeCart (c : Cart) : decodeCart (encodeCart c) = some c := by
  cases c with
  | nil => decide
  | cons kv c =>
    obtain ⟨B, hB⟩ := encodeEntries_cons_shape kv c
    unfold decodeCart encodeCart
    rw [show (String.mk (obrace :: (encodeEntries (kv :: c) ++ [cbrace]))).toList =
        obrace :: (encodeEntries (kv :: c) ++ [cbrace]) from rfl]
    rw [hB, List.cons_append, parseCartChars_cons _ (by decide),
      ← List.cons_append, ← hB]
    have hlen := encodeEntries_length (kv :: c)
    rw [parseEntriesAux_enc c kv _ [] (by
      simp only [List.length_cons, List.length_append, List.length_nil] at hlen ⊢
      omega)]

theorem encodeCart_ne_empty (c : Cart) : encodeCart c ≠ "" := by
  unfold encodeCart
  intro h
  have h2 := congrArg String.data h
  simp at h2

theorem loadCart_encodeCart (c : Cart) :
    loadCart (some (encodeCart c)) = some c := by
  rw [show loadCart (some (encodeCart c)) =
      decodeCart (if encodeCart c = "" then emptyObjStr else encodeCart c)
      from rfl,
    if_neg (encodeCart_ne_empty c)]
  exact decodeCart_encodeCart c

/-! ### Preservation of the spec's key invariants -/

theorem cartKeysOk_bumpQty {c : Cart} (hk : cartKeysOk c = true) (id : Int) :
    cartKeysOk (bumpQty c id) = true := by
  rw [cartKeysOk, List.all_eq_true] at hk ⊢
  intro kv hm
  obtain ⟨kv', hm', he⟩ := mem_bumpQty hm
  split at he
  · rw [he]
    simpa using hk kv' hm'
  · rw [he]
    exact hk kv' hm'

theorem cartKeysOk_decQty {c : Cart} (hk : cartKeysOk c = true) (id : Int) :
    cartKeysOk (decQty c id) = true := by
  rw [cartKeysOk, List.all_eq_true] at hk ⊢
  intro kv hm
  obtain ⟨kv', hm', he⟩ := mem_decQty hm
  split at he
  · rw [he]
    simpa using hk kv' hm'
  · rw [he]
    exact hk kv' hm'

theorem cartKeysOk_eraseKey {c : Cart} (hk : cartKeysOk c = true) (id : Int) :
    cartKeysOk (eraseKey c id) = true := by
  rw [cartKeysOk, List.all_eq_true] at hk ⊢
  intro kv hm
  exact hk kv (mem_eraseKey hm).1

theorem cartKeysOk_addToCart {c : Cart} (hk : cartKeysOk c = true) (id : Int) :
    cartKeysOk (addToCart c id) = true := by
  unfold addToCart
  cases hf : products.find? (fun p => p.id == id) with
  | none => exact hk
  | some p =>
    cases hl : lookupEntry c id with
    | some e => exact cartKeysOk_bumpQty hk id
    | none =>
      apply cartKeysOk_bumpQty
      have hpid := List.find?_some hf
      simp only [beq_iff_eq] at hpid
      have hpm : p ∈ products := List.mem_of_find?_eq_some hf
      rw [cartKeysOk, List.all_eq_true] at hk ⊢
      intro kv hm
      rcases List.mem_append.mp hm with hmc | hmn
      · exact hk kv hmc
      · have hx := List.mem_singleton.mp hmn
        rw [hx]
        simp only [Bool.and_eq_true, beq_iff_eq]
        refine ⟨hpid.symm, ?_⟩
        rw [List.any_eq_true]
        exact ⟨p, hpm, by simp [hpid]⟩

theorem cartKeysOk_applyOp {c c' : Cart} {op : Op} (hk : cartKeysOk c = true)
    (hs : applyOp c op = some c') : cartKeysOk c' = true := by
  cases op with
  | add id => cases hs; exact cartKeysOk_addToCart hk id
  | increment id =>
    simp only [applyOp, incrementOp] at hs
    cases hl : lookupEntry c id with
    | none => rw [hl] at hs; exact absurd hs (by simp)
    | some e => rw [hl] at hs; cases hs; exact cartKeysOk_bumpQty hk id
  | decrement id =>
    simp only [applyOp, decrementOp] at hs
    cases hl : lookupEntry c id with
    | none => rw [hl] at hs; exact absurd hs (by simp)
    | some e =>
      rw [hl] at hs
      simp only [] at hs
      split at hs
      · cases hs
        exact cartKeysOk_eraseKey (cartKeysOk_decQty hk id) id
      · cases hs
        exact cartKeysOk_decQty hk id
  | remove id => cases hs; exact cartKeysOk_eraseKey hk id
  | clear => cases hs; rfl

/-! ### Claim theorems -/

/-- **C1**: for every cart (the empty cart included), decoding the encoded
persisted form yields the original cart: `decode(encode(cart)) == cart`.
The theorem is unconditional over the model's carts, so in particular it
covers every valid cart (non-negative prices, positive quantities). -/
theorem decode_encode_roundtrip (c : Cart) : decodeCart (encodeCart c) = some c :=
  decodeCart_encodeCart c

/-- **C2** (code bug): absent (or empty) stored state falls back to the
empty cart, but on a malformed persisted string such as `garbage` the
startup expression `JSON.parse(localStorage.getItem(..) || ..)` throws a
`SyntaxError` (modelled `none`) instead of returning an empty cart — the
spec's fail-soft decode contract is not implemented. -/
theorem decode_malformed_crashes :
    loadCart none = some [] ∧ loadCart (some ("garbage")) = none := by
  constructor
  · decide
  · decide

/-- **C3** (counterexample): `increment` on a product id with no cart entry
is not a silent no-op: the handler evaluates `cart[id].qty++` on
`undefined` and throws a `TypeError` (modelled `none`), rather than
leaving the cart unchanged (`some []`). -/
theorem increment_unknown_errors :
    incrementOp [] 999 = none ∧ incrementOp [] 999 ≠ some [] := by
  exact ⟨rfl, by decide⟩

/-- **C3** (amended): for an id with no catalog product and no cart entry,
`add` and `remove` are silent no-ops that leave the cart unchanged, while
`increment` and `decrement` throw a `TypeError` (modelled `none`) — the UI
only ever offers them on rendered entries. -/
theorem unknown_id_operations (c : Cart) (id : Int)
    (hcat : products.find? (fun p => p.id == id) = none)
    (hent : lookupEntry c id = none) :
    addToCart c id = c ∧ removeOp c id = c ∧
      incrementOp c id = none ∧ decrementOp c id = none := by
  refine ⟨?_, ?_, ?_, ?_⟩
  · simp [addToCart, hcat]
  · exact eraseKey_of_lookup_none hent
  · simp [incrementOp, hent]
  · simp [decrementOp, hent]

/-- Witness for the amended C3 at the concrete unknown id 999 on the empty
cart. -/
theorem unknown_id_operations_witness :
    addToCart [] 999 = [] ∧ removeOp [] 999 = [] ∧
      incrementOp [] 999 = none ∧ decrementOp [] 999 = none :=
  unknown_id_operations [] 999 (by decide) (by decide)

/-- **C4**: from a well-formed cart, every operation sequence that runs
without throwing keeps every stored quantity at least 1 (no zero or
negative entry is ever stored), and decrementing an entry of quantity 1
removes it entirely, so no record for that id remains. -/
theorem quantities_stay_positive (c c' : Cart) (ops : List Op)
    (hwf : cartWF c) (hrun : runOps c ops = some c') :
    cartWF c' ∧
      ∀ id e, lookupEntry c' id = some e → e.qty = 1 →
        ∃ c'', decrementOp c' id = some c'' ∧ lookupEntry c'' id = none := by
  refine ⟨cartWF_runOps hwf hrun, fun id e hl hq => ?_⟩
  obtain ⟨h1, h2⟩ := decrement_qty_one_removes hl hq
  exact ⟨_, h1, h2⟩

/-- Witness for C4: a one-entry quantity-1 cart, decremented once, ends as
the empty cart satisfying the invariant. -/
theorem quantities_stay_positive_witness :
    cartWF [] ∧
      ∀ id e, lookupEntry ([] : Cart) id = some e → e.qty = 1 →
        ∃ c'', decrementOp ([] : Cart) id = some c'' ∧ lookupEntry c'' id = none :=
  quantities_stay_positive
    [(1, { id := 1, name := "x", price := 5, desc := "d", qty := 1 })] []
    [Op.decrement 1] (by decide) (by decide)

/-- **C5**: for an id present in the catalog, `addToCart` increases that
id's stored quantity by exactly one — creating the entry with name and
price copied from the catalog when absent — and leaves every other entry
unchanged; adding the same id twice from the empty cart yields exactly one
entry with quantity 2. -/
theorem addToCart_adds_exactly_one (c : Cart) (id : Int) (p : Product)
    (hp : products.find? (fun x => x.id == id) = some p) :
    qtyOf (addToCart c id) id = qtyOf c id + 1 ∧
      (lookupEntry c id = none →
        lookupEntry (addToCart c id) id =
          some { id := p.id, name := p.name, price := p.price,
                 desc := p.desc, qty := 1 }) ∧
      (∀ j, j ≠ id → lookupEntry (addToCart c id) j = lookupEntry c j) ∧
      addToCart (addToCart [] id) id =
        [(id, { id := p.id, name := p.name, price := p.price,
                desc := p.desc, qty := 2 })] := by
  refine ⟨?_, ?_, ?_, ?_⟩
  · cases hl : lookupEntry c id with
    | some e =>
      rw [addToCart_eq_of_found hp hl]
      unfold qtyOf
      rw [lookupEntry_bumpQty_self, hl]
      rfl
    | none =>
      rw [addToCart_eq_of_new hp hl]
      unfold qtyOf
      rw [lookupEntry_bumpQty_self, lookupEntry_append_self hl, hl]
      rfl
  · intro hl
    rw [addToCart_eq_of_new hp hl, lookupEntry_bumpQty_self,
      lookupEntry_append_self hl]
    rfl
  · intro j hj
    cases hl : lookupEntry c id with
    | some e => rw [addToCart_eq_of_found hp hl, lookupEntry_bumpQty_ne _ hj]
    | none =>
      rw [addToCart_eq_of_new hp hl, lookupEntry_bumpQty_ne _ hj,
        lookupEntry_append_ne _ hj]
  · have h1 : lookupEntry ([] : Cart) id = none := rfl
    rw [addToCart_eq_of_new hp h1, List.nil_append, bumpQty_cons, if_pos rfl,
      show bumpQty ([] : Cart) id = [] from rfl]
    have h2 : lookupEntry
        [(id, { id := p.id, name := p.name, price := p.price,
                desc := p.desc, qty := 0 + 1 })] id =
        some { id := p.id, name := p.name, price := p.price,
               desc := p.desc, qty := 0 + 1 } := by
      rw [lookupEntry_cons, if_pos rfl]
    rw [addToCart_eq_of_found hp h2, bumpQty_cons, if_pos rfl,
      show bumpQty ([] : Cart) id = [] from rfl]

/-- Witness for C5 at catalog product 3 on the empty cart. -/
theorem addToCart_adds_exactly_one_witness :
    qtyOf (addToCart [] 3) 3 = qtyOf [] 3 + 1 ∧
      (lookupEntry ([] : Cart) 3 = none →
        lookupEntry (addToCart [] 3) 3 =
          some { id := 3, name := "Tarjeta personalizada", price := 6000,
                 desc := "Tarjeta hecha a mano con mensaje", qty := 1 }) ∧
      (∀ j, j ≠ 3 → lookupEntry (addToCart [] 3) j = lookupEntry ([] : Cart) j) ∧
      addToCart (addToCart [] 3) 3 =
        [(3, { id := 3, name := "Tarjeta personalizada", price := 6000,
               desc := "Tarjeta hecha a mano con mensaje", qty := 2 })] :=
  addToCart_adds_exactly_one [] 3
    { id := 3, name := "Tarjeta personalizada", price := 6000,
      desc := "Tarjeta hecha a mano con mensaje" } (by decide)

/-- **C6**: `orderTotal` is the exact integer sum of `quantity * price`
over all entries (a non-negative integer by type), 0 for the empty cart,
and 30000 for the cart `qty 2 @ 12000, qty 1 @ 6000`. -/
theorem orderTotal_correct :
    (∀ c : Cart, orderTotal c = (c.map (fun kv => kv.2.qty * kv.2.price)).sum) ∧
      orderTotal [] = 0 ∧
      orderTotal
        [(1, { id := 1, name := "A", price := 12000, desc := "", qty := 2 }),
         (3, { id := 3, name := "B", price := 6000, desc := "", qty := 1 })] =
        30000 :=
  ⟨orderTotal_eq_sum, rfl, by decide⟩

/-- A decodable persisted cart whose key does not match its entry's id and
names no catalog product: the startup decode accepts it unchanged. -/
def badCart : Cart := [(999, { id := 7, name := "x", price := 5, desc := "d", qty := 2 })]

/-- **C7** (counterexample): startup decoding performs no validation — a
well-formed persisted string whose single key 999 differs from the stored
entry's id 7 (and is no catalog product id) decodes successfully, so the
claimed key invariants do not hold after every startup. -/
theorem startup_invariant_fails :
    loadCart (some (encodeCart badCart)) = some badCart ∧
      cartKeysOk badCart = false := by
  exact ⟨loadCart_encodeCart badCart, by decide⟩

/-- **C7** (amended): both key invariants (key equals the entry's `id`
field; key names a catalog product) are preserved by every mutation
operation, and startup from a string the engine itself persisted — or from
absent storage — restores an invariant-satisfying cart; only a foreign
well-formed persisted string can violate them, since ids are validated at
add-time only. -/
theorem cart_invariants_preserved (c c' : Cart) (op : Op)
    (hk : cartKeysOk c = true) (hs : applyOp c op = some c') :
    cartKeysOk c' = true ∧ loadCart (some (encodeCart c)) = some c ∧
      loadCart none = some [] :=
  ⟨cartKeysOk_applyOp hk hs, loadCart_encodeCart c, by decide⟩

/-- Witness for the amended C7: a cart holding catalog product 1, cleared. -/
theorem cart_invariants_preserved_witness :
    cartKeysOk [] = true ∧
      loadCart (some (encodeCart
        [(1, { id := 1, name := "n", price := 2, desc := "d", qty := 1 })])) =
        some [(1, { id := 1, name := "n", price := 2, desc := "d", qty := 1 })] ∧
      loadCart none = some [] :=
  cart_invariants_preserved
    [(1, { id := 1, name := "n", price := 2, desc := "d", qty := 1 })] []
    Op.clear (by decide) (by decide)

/-- **C8**: checkout on an empty cart is refused up front (the user is
alerted; no summary document and no message string are produced), and the
checkout handler never mutates the cart, empty or not. -/
theorem empty_checkout_refused (now : String) (c : Cart) :
    (checkoutClick now []).1 = none ∧ (checkoutClick now c).2 = c := by
  constructor
  · rfl
  · simp only [checkoutClick]
    split <;> rfl

/-- **C9**: `formatMoney` renders the currency prefix followed by the
decimal digits grouped in clusters of exactly three counted from the
least-significant digit with a separator between clusters (no decimal
places); it agrees with the spec-worded grouping on every amount, with
`12000 ↦ $12.000` and `1000000 ↦ $1.000.000`. -/
theorem formatMoney_groups_of_three (n : Nat) :
    formatMoney n = formatMoneySpec n ∧ formatMoney 12000 = "$12.000" ∧
      formatMoney 1000000 = "$1.000.000" :=
  ⟨formatMoney_eq_spec n, by decide, by decide⟩

/-- **C10**: `escapeHtml` equals the order-preserving per-character
substitution that maps exactly the five characters to their entity forms
and leaves every other character unchanged; example on the five specials. -/
theorem escapeHtml_escapes_five (s : String) :
    escapeHtml s = escapeTextSpec s ∧
      escapeHtml (String.mk ['<', 'b', '>', '&', squote, '"']) =
        "&lt;b&gt;&amp;&#039;&quot;" := by
  constructor
  · unfold escapeHtml escapeTextSpec
    rw [escapeHtmlChars_eq]
  · decide

end Tienda
